import Mathlib

/-!
# krelease-tracker: verification of the release ledger, sync, liveness and auth layers

Shallow embedding of the Go sources of `krelease-tracker`:

* `internal/database/sqlite.go` — the release ledger (upsert, current-state
  queries, name-based badge lookup, retention, pending releases, slave pings).
  The SQLite tables are modelled as Lean lists of rows; RFC3339 timestamp
  strings (whose lexicographic order is chronological for the formats the
  program writes) are modelled as `Nat` (ledger) / `Int` (ping ages, where
  Go's `time.Sub` may be negative).
* `internal/sync/client.go` — the outbox drain cycle.
* `internal/api/handlers.go` and the API auth file (`unnamed/part_002`) —
  API-key extraction/classification/validation and the handler access checks.

Query results are kept in the row order of the underlying list; the SQL
`ORDER BY` clauses only affect presentation order and no theorem below depends
on it.  `DISTINCT` in the current-release queries is dropped: the selected
columns include the table's unique key, so on states satisfying the uniqueness
invariant no two selected tuples coincide.
-/

namespace KRelease

/-- A row of the `releases` table (struct `Release` in `models.go`; the
`ns` field is the `namespace` column, renamed because `namespace` is a Lean
keyword).  Timestamps are `Nat` stand-ins for the RFC3339 strings the Go code
stores and compares. -/
structure Release where
  id : Nat
  ns : String
  workloadName : String
  workloadType : String
  containerName : String
  imageRepo : String
  imageName : String
  imageTag : String
  imageSHA : String
  clientName : String
  envName : String
  firstSeen : Nat
  lastSeen : Nat
  createdAt : Nat
  updatedAt : Nat
deriving DecidableEq

/-- The `ON CONFLICT` natural key of `releases` (migration 2):
`(namespace, workload_name, container_name, client_name, env_name, image_sha)`. -/
def releaseKey (r : Release) : String × String × String × String × String × String :=
  (r.ns, r.workloadName, r.containerName, r.clientName, r.envName, r.imageSHA)

/-- Number of rows of `db` carrying the natural key `K`. -/
def keyCount (db : List Release) (K : String × String × String × String × String × String) : Nat :=
  (db.filter (fun x => releaseKey x == K)).length

/-- `id` assignment of the `INTEGER PRIMARY KEY AUTOINCREMENT` column: one more
than the largest id ever used (fresh for every row of `db`). -/
def nextId (db : List Release) : Nat :=
  (db.map Release.id).foldr max 0 + 1

/-- `UpsertRelease` (`sqlite.go` 39–63): `INSERT ... ON CONFLICT(natural key)
DO UPDATE SET last_seen = excluded value, updated_at = now`.  `now` is the
wall-clock value the Go code formats into `created_at`/`updated_at`. -/
def upsertRelease (now : Nat) (db : List Release) (r : Release) : List Release :=
  if db.any (fun x => releaseKey x == releaseKey r) then
    db.map (fun x =>
      if releaseKey x == releaseKey r then
        { x with lastSeen := r.lastSeen, updatedAt := now }
      else x)
  else
    db ++ [{ r with id := nextId db, createdAt := now, updatedAt := now }]

/-- Updating `last_seen`/`updated_at` does not touch the natural key. -/
theorem releaseKey_update (x : Release) (a now : Nat) :
    releaseKey { x with lastSeen := a, updatedAt := now } = releaseKey x := rfl

theorem keyCount_upsert_self (now : Nat) (db : List Release) (r : Release)
    (h : keyCount db (releaseKey r) ≤ 1) :
    keyCount (upsertRelease now db r) (releaseKey r) = 1 := by
  unfold upsertRelease
  by_cases hany : db.any (fun x => releaseKey x == releaseKey r) = true
  · simp only [hany, if_true]
    have hmap : keyCount
        (db.map (fun x => if releaseKey x == releaseKey r then
          { x with lastSeen := r.lastSeen, updatedAt := now } else x)) (releaseKey r)
        = keyCount db (releaseKey r) := by
      unfold keyCount
      rw [← List.countP_eq_length_filter, ← List.countP_eq_length_filter, List.countP_map]
      apply List.countP_congr
      intro x _
      by_cases hx : releaseKey x == releaseKey r
      · simp [Function.comp, hx, releaseKey_update]
      · simp [Function.comp, hx]
    rw [hmap]
    rcases List.any_eq_true.mp hany with ⟨x, hx, hkx⟩
    have hone : 1 ≤ keyCount db (releaseKey r) := by
      unfold keyCount
      have : x ∈ db.filter (fun x => releaseKey x == releaseKey r) :=
        List.mem_filter.mpr ⟨hx, hkx⟩
      calc 1 = [x].length := rfl
        _ ≤ _ := List.Sublist.length_le ((List.singleton_sublist).mpr this)
    omega
  · rw [Bool.not_eq_true] at hany
    simp only [hany, Bool.false_eq_true, if_false]
    have hzero : keyCount db (releaseKey r) = 0 := by
      unfold keyCount
      rw [List.length_eq_zero]
      apply List.filter_eq_nil_iff.mpr
      intro x hx
      intro hkx
      have : db.any (fun x => releaseKey x == releaseKey r) = true :=
        List.any_eq_true.mpr ⟨x, hx, hkx⟩
      rw [hany] at this
      exact Bool.false_ne_true this
    unfold keyCount at hzero ⊢
    rw [List.filter_append, List.length_append, hzero]
    simp [releaseKey]

theorem mem_upsert_lastSeen (now : Nat) (db : List Release) (r : Release)
    (hany : db.any (fun x => releaseKey x == releaseKey r) = true)
    (x : Release) (hx : x ∈ upsertRelease now db r)
    (hkx : releaseKey x = releaseKey r) : x.lastSeen = r.lastSeen := by
  unfold upsertRelease at hx
  rw [hany, if_pos rfl] at hx
  rcases List.mem_map.mp hx with ⟨y, _, hy⟩
  by_cases hky : releaseKey y == releaseKey r
  · rw [if_pos hky] at hy
    rw [← hy]
  · rw [if_neg hky] at hy
    subst hy
    exact absurd (beq_iff_eq.mpr hkx) hky

theorem length_upsert_existing (now : Nat) (db : List Release) (r : Release)
    (hany : db.any (fun x => releaseKey x == releaseKey r) = true) :
    (upsertRelease now db r).length = db.length := by
  unfold upsertRelease
  rw [hany, if_pos rfl, List.length_map]

/-- The uniqueness invariant the `UNIQUE(natural key)` constraint maintains:
no two rows share the conflict key. -/
def uniqueKeys (db : List Release) : Prop :=
  db.Pairwise (fun a b => releaseKey a ≠ releaseKey b)

theorem keyCount_le_one_of_uniqueKeys (db : List Release) (h : uniqueKeys db)
    (K : String × String × String × String × String × String) : keyCount db K ≤ 1 := by
  induction db with
  | nil => simp [keyCount]
  | cons x xs ih =>
    rcases List.pairwise_cons.mp h with ⟨hx, hxs⟩
    by_cases hk : (releaseKey x == K) = true
    · have hnil : xs.filter (fun y => releaseKey y == K) = [] := by
        apply List.filter_eq_nil_iff.mpr
        intro y hy hky
        exact hx y hy (by rw [beq_iff_eq.mp hk, ← beq_iff_eq.mp hky])
      unfold keyCount
      simp only [List.filter_cons, hk, if_true]
      rw [hnil]
      simp
    · unfold keyCount
      simp only [List.filter_cons, hk]
      exact ih hxs

theorem any_of_keyCount_pos (db : List Release)
    (K : String × String × String × String × String × String)
    (h : 1 ≤ keyCount db K) : db.any (fun x => releaseKey x == K) = true := by
  unfold keyCount at h
  cases hf : db.filter (fun x => releaseKey x == K) with
  | nil => rw [hf] at h; simp at h
  | cons x xs =>
    have hx : x ∈ db.filter (fun y => releaseKey y == K) := by
      rw [hf]; exact List.mem_cons_self x xs
    have hm := List.mem_filter.mp hx
    exact List.any_eq_true.mpr ⟨x, hm.1, hm.2⟩

/-- C1 (amended): on a ledger satisfying the unique-key invariant, two
successive `UpsertRelease` calls on the same natural key leave exactly one row
for that key; its `last_seen` equals the second (later) call's value — the
`DO UPDATE` clause overwrites it unconditionally — and the second call adds no
row.  The original claim's "only ever advances (never regresses)" clause is
refuted by `upsert_last_seen_can_regress` below: the overwrite can move
`last_seen` backwards when the later call carries an older timestamp. -/
theorem upsert_twice_one_row_last_write_wins (db : List Release) (now1 now2 : Nat)
    (r1 r2 : Release) (hu : uniqueKeys db) (hk : releaseKey r1 = releaseKey r2) :
    keyCount (upsertRelease now2 (upsertRelease now1 db r1) r2) (releaseKey r2) = 1
    ∧ (∀ x ∈ upsertRelease now2 (upsertRelease now1 db r1) r2,
        releaseKey x = releaseKey r2 → x.lastSeen = r2.lastSeen)
    ∧ (upsertRelease now2 (upsertRelease now1 db r1) r2).length
        = (upsertRelease now1 db r1).length := by
  have h1 : keyCount (upsertRelease now1 db r1) (releaseKey r1) = 1 :=
    keyCount_upsert_self now1 db r1 (keyCount_le_one_of_uniqueKeys db hu _)
  rw [hk] at h1
  have hany2 : (upsertRelease now1 db r1).any (fun x => releaseKey x == releaseKey r2) = true :=
    any_of_keyCount_pos _ _ (by omega)
  refine ⟨keyCount_upsert_self now2 _ r2 (by omega), ?_, ?_⟩
  · intro x hx hkx
    exact mem_upsert_lastSeen now2 _ r2 hany2 x hx hkx
  · exact length_upsert_existing now2 _ r2 hany2

/-- A concrete release fact used in counterexamples/witnesses. -/
def exR1 : Release :=
  { id := 0, ns := "ns", workloadName := "w", workloadType := "Deployment",
    containerName := "c", imageRepo := "repo", imageName := "img", imageTag := "1.0",
    imageSHA := "sha1", clientName := "A", envName := "e",
    firstSeen := 5, lastSeen := 5, createdAt := 0, updatedAt := 0 }

/-- The same fact re-observed with an *older* `last_seen` timestamp. -/
def exR2 : Release := { exR1 with firstSeen := 3, lastSeen := 3 }

/-- C1 counterexample: upserting a fact with `last_seen = 5` and then the same
natural key with `last_seen = 3` stores `3 < 5` — the stored `last_observed_at`
regresses, refuting "only ever advances (never regresses)". -/
theorem upsert_last_seen_can_regress :
    releaseKey exR1 = releaseKey exR2
    ∧ (upsertRelease 10 [] exR1).map Release.lastSeen = [5]
    ∧ (upsertRelease 20 (upsertRelease 10 [] exR1) exR2).map Release.lastSeen = [3]
    ∧ (3 : Nat) < 5 := by
  refine ⟨rfl, by decide, by decide, by decide⟩

/-- Witness for `upsert_twice_one_row_last_write_wins` at a concrete input. -/
theorem upsert_twice_one_row_last_write_wins_witness :
    keyCount (upsertRelease 20 (upsertRelease 10 [] exR1) exR2) (releaseKey exR2) = 1
    ∧ (upsertRelease 20 (upsertRelease 10 [] exR1) exR2).length
        = (upsertRelease 10 [] exR1).length :=
  ⟨(upsert_twice_one_row_last_write_wins [] 10 20 exR1 exR2 List.Pairwise.nil rfl).1,
   (upsert_twice_one_row_last_write_wins [] 10 20 exR1 exR2 List.Pairwise.nil rfl).2.2⟩

/-! ## AccessKey classifier (API auth file, `unnamed/part_002`)

Go strings are modelled as `List Char` here, since the classifier splits and
concatenates them. -/

/-- Go `strings.Split(s, sep)` for a one-character separator: always returns
at least one (possibly empty) segment. -/
def splitOnChar (sep : Char) : List Char → List (List Char)
  | [] => [[]]
  | c :: cs =>
    match splitOnChar sep cs with
    | [] => [[]]
    | p :: ps => if c = sep then [] :: p :: ps else (c :: p) :: ps

/-- Inverse of `splitOnChar`: interleave the separator back. -/
def joinWithChar (sep : Char) : List (List Char) → List Char
  | [] => []
  | [p] => p
  | p :: q :: ps => p ++ sep :: joinWithChar sep (q :: ps)

theorem splitOnChar_ne_nil (sep : Char) (l : List Char) : splitOnChar sep l ≠ [] := by
  cases l with
  | nil => simp [splitOnChar]
  | cons c cs =>
    simp only [splitOnChar]
    cases splitOnChar sep cs with
    | nil => simp
    | cons p ps =>
      by_cases hc : c = sep
      · simp [hc]
      · simp [hc]

theorem joinWithChar_splitOnChar (sep : Char) (l : List Char) :
    joinWithChar sep (splitOnChar sep l) = l := by
  induction l with
  | nil => rfl
  | cons c cs ih =>
    cases hs : splitOnChar sep cs with
    | nil => exact absurd hs (splitOnChar_ne_nil sep cs)
    | cons p ps =>
      rw [hs] at ih
      by_cases hc : c = sep
      · simp only [splitOnChar, hs, if_pos hc]
        cases ps with
        | nil => simpa [joinWithChar, hc] using ih
        | cons q ps' => simpa [joinWithChar, hc] using ih
      · simp only [splitOnChar, hs, if_neg hc]
        cases ps with
        | nil => simpa [joinWithChar] using ih
        | cons q ps' => simpa [joinWithChar] using ih

/-- If splitting yields exactly two segments, gluing them with the separator
recovers the original string. -/
theorem splitOnChar_two_segments (sep : Char) (l a b : List Char)
    (h : splitOnChar sep l = [a, b]) : a ++ sep :: b = l := by
  have := joinWithChar_splitOnChar sep l
  rw [h] at this
  simpa [joinWithChar] using this

/-- `parseAPIKey` (part_002 171–181): split on `-`; exactly two non-empty
segments ⇒ client key `(clientName, clientAuth, isAdmin = false)`; any other
shape ⇒ admin key `("", apiKey, true)`. -/
def parseAPIKey (apiKey : List Char) : List Char × List Char × Bool :=
  match splitOnChar '-' apiKey with
  | [a, b] => if a ≠ [] ∧ b ≠ [] then (a, b, false) else ([], apiKey, true)
  | _ => ([], apiKey, true)

theorem parseAPIKey_of_two (k p q : List Char) (hs : splitOnChar '-' k = [p, q]) :
    parseAPIKey k = if p ≠ [] ∧ q ≠ [] then (p, q, false) else ([], k, true) := by
  unfold parseAPIKey
  rw [hs]

theorem parseAPIKey_of_other (k : List Char) (hs : ∀ p q, splitOnChar '-' k ≠ [p, q]) :
    parseAPIKey k = ([], k, true) := by
  unfold parseAPIKey
  cases h : splitOnChar '-' k with
  | nil => rfl
  | cons p ps =>
    cases ps with
    | nil => rfl
    | cons q qs =>
      cases qs with
      | nil => exact absurd h (hs p q)
      | cons r rs => rfl

/-- `isValidAPIKey` (part_002 194–203): length guard plus
`subtle.ConstantTimeCompare`.  The stdlib comparator is an external
collaborator, modelled by its functional contract — result 1 exactly on
byte-for-byte equal inputs; its constant-time *timing* guarantee is not
expressible in this embedding. -/
def isValidAPIKey (apiKeys : List (List Char)) (providedKey : List Char) : Bool :=
  apiKeys.any (fun validKey =>
    providedKey.length == validKey.length && providedKey == validKey)

/-- `validateAPIKeyAccess` (part_002 183–192): admin keys are validated
verbatim; client keys are validated as the reconstructed
`clientName + "-" + clientAuth`. -/
def validateAPIKeyAccess (apiKeys : List (List Char))
    (clientName clientAuth : List Char) (isAdmin : Bool) : Bool :=
  if isAdmin then
    isValidAPIKey apiKeys clientAuth
  else
    isValidAPIKey apiKeys (clientName ++ '-' :: clientAuth)

/-- The shape `parseAPIKey` treats as tenant-scoped. -/
def tenantShaped (k : List Char) : Prop :=
  ∃ a b, splitOnChar '-' k = [a, b] ∧ a ≠ [] ∧ b ≠ []

theorem isValidAPIKey_iff_mem (apiKeys : List (List Char)) (p : List Char) :
    isValidAPIKey apiKeys p = true ↔ p ∈ apiKeys := by
  unfold isValidAPIKey
  rw [List.any_eq_true]
  constructor
  · rintro ⟨v, hv, hp⟩
    rcases Bool.and_eq_true_iff.mp hp with ⟨-, hpe⟩
    rw [beq_iff_eq.mp hpe]
    exact hv
  · intro hp
    exact ⟨p, hp, by simp⟩

theorem parseAPIKey_tenant_inv (k a b : List Char)
    (h : parseAPIKey k = (a, b, false)) :
    splitOnChar '-' k = [a, b] ∧ a ≠ [] ∧ b ≠ [] := by
  by_cases htwo : ∃ p q, splitOnChar '-' k = [p, q]
  · rcases htwo with ⟨p, q, hs⟩
    rw [parseAPIKey_of_two k p q hs] at h
    by_cases hpq : p ≠ [] ∧ q ≠ []
    · rw [if_pos hpq] at h
      injection h with h1 h2
      injection h2 with h2 h3
      subst h1; subst h2
      exact ⟨hs, hpq⟩
    · rw [if_neg hpq] at h
      simp at h
  · rw [parseAPIKey_of_other k (by push_neg at htwo; exact fun p q => htwo p q)] at h
    simp at h

theorem parseAPIKey_admin_of_not_tenantShaped (k : List Char)
    (h : ¬ tenantShaped k) : parseAPIKey k = ([], k, true) := by
  by_cases htwo : ∃ p q, splitOnChar '-' k = [p, q]
  · rcases htwo with ⟨p, q, hs⟩
    rw [parseAPIKey_of_two k p q hs, if_neg]
    intro hpq
    exact h ⟨p, q, hs, hpq⟩
  · exact parseAPIKey_of_other k (by push_neg at htwo; exact fun p q => htwo p q)

theorem parseAPIKey_isAdmin_false_iff (k : List Char) :
    (parseAPIKey k).2.2 = false ↔ tenantShaped k := by
  constructor
  · intro h
    rcases hp : parseAPIKey k with ⟨a, b, adm⟩
    rw [hp] at h
    simp only at h
    subst h
    rcases parseAPIKey_tenant_inv k a b hp with ⟨hs, ha, hb⟩
    exact ⟨a, b, hs, ha, hb⟩
  · rintro ⟨a, b, hs, ha, hb⟩
    rw [parseAPIKey_of_two k a b hs, if_pos ⟨ha, hb⟩]

/-- C4 (confirmed): the classifier treats a credential as tenant-scoped exactly
when splitting on `-` yields exactly two non-empty segments (segment 1 =
client/tenant, segment 2 = secret); every other shape is an admin credential
carried verbatim.  Validation checks the reconstructed full string
(tenant case) or the verbatim string (admin case) for membership in the
configured key list; the comparator's constant-time execution is a timing
property outside this embedding, its functional content being equality. -/
theorem classifier_shape_and_validation (apiKeys : List (List Char)) (k : List Char) :
    ((parseAPIKey k).2.2 = false ↔ tenantShaped k)
    ∧ (∀ a b, parseAPIKey k = (a, b, false) → splitOnChar '-' k = [a, b] ∧ a ≠ [] ∧ b ≠ [])
    ∧ (¬ tenantShaped k → parseAPIKey k = ([], k, true))
    ∧ (∀ a b, validateAPIKeyAccess apiKeys a b false = isValidAPIKey apiKeys (a ++ '-' :: b))
    ∧ (validateAPIKeyAccess apiKeys [] k true = isValidAPIKey apiKeys k)
    ∧ (∀ p, isValidAPIKey apiKeys p = true ↔ p ∈ apiKeys) :=
  ⟨parseAPIKey_isAdmin_false_iff k,
   fun a b h => parseAPIKey_tenant_inv k a b h,
   fun h => parseAPIKey_admin_of_not_tenantShaped k h,
   fun _ _ => rfl,
   rfl,
   fun p => isValidAPIKey_iff_mem apiKeys p⟩

/-- Witness for `classifier_shape_and_validation` at concrete credentials. -/
theorem classifier_shape_and_validation_witness :
    parseAPIKey ['t', '-', 's'] = (['t'], ['s'], false)
    ∧ parseAPIKey ['a', 'd', 'm'] = ([], ['a', 'd', 'm'], true)
    ∧ (isValidAPIKey [['t', '-', 's']] ['t', '-', 's'] = true ↔
        ['t', '-', 's'] ∈ [['t', '-', 's']]) := by
  refine ⟨?_, ?_, (classifier_shape_and_validation [['t', '-', 's']] ['t', '-', 's']).2.2.2.2.2 _⟩
  · have h := (classifier_shape_and_validation [] ['t', '-', 's']).1
    decide
  · have h := (classifier_shape_and_validation [] ['a', 'd', 'm']).2.2.1
    apply h
    rintro ⟨a, b, hs, -, -⟩
    have hone : splitOnChar '-' ['a', 'd', 'm'] = [['a', 'd', 'm']] := by decide
    rw [hone] at hs
    simp at hs

/-- `parseAPIKey` followed by `validateAPIKeyAccess`, the composed pipeline of
`authMiddleware` (part_002 96–99). -/
def classifyThenValidate (apiKeys : List (List Char)) (apiKey : List Char) : Bool :=
  match parseAPIKey apiKey with
  | (clientName, clientAuth, isAdmin) => validateAPIKeyAccess apiKeys clientName clientAuth isAdmin

/-- C10 (confirmed): the composed pipeline accepts a credential exactly when it
is character-for-character equal to a configured API key — the tenant branch
reconstructs `clientName ++ "-" ++ clientAuth`, which equals the original
credential, and the admin branch passes it through verbatim, so classification
never changes which strings are accepted. -/
theorem classifyThenValidate_accepts_iff_configured (apiKeys : List (List Char))
    (k : List Char) : classifyThenValidate apiKeys k = true ↔ k ∈ apiKeys := by
  unfold classifyThenValidate
  rcases hp : parseAPIKey k with ⟨a, b, adm⟩
  cases adm with
  | true =>
    have hb : b = k := by
      by_cases htwo : ∃ p q, splitOnChar '-' k = [p, q]
      · rcases htwo with ⟨p, q, hs⟩
        rw [parseAPIKey_of_two k p q hs] at hp
        by_cases hpq : p ≠ [] ∧ q ≠ []
        · rw [if_pos hpq] at hp; simp at hp
        · rw [if_neg hpq] at hp
          injection hp with h1 h2
          injection h2 with h2 h3
          exact h2.symm ▸ rfl
      · rw [parseAPIKey_of_other k (by push_neg at htwo; exact fun p q => htwo p q)] at hp
        injection hp with h1 h2
        injection h2 with h2 h3
        exact h2.symm ▸ rfl
    subst hb
    simpa [validateAPIKeyAccess] using isValidAPIKey_iff_mem apiKeys b
  | false =>
    rcases parseAPIKey_tenant_inv k a b hp with ⟨hs, -, -⟩
    have hjoin : a ++ '-' :: b = k := splitOnChar_two_segments '-' k a b hs
    simpa [validateAPIKeyAccess, hjoin] using isValidAPIKey_iff_mem apiKeys k

/-! ## Credential extraction channels (`extractAPIKey`, part_002 139–162) -/

/-- Value of a hexadecimal digit, `none` on a non-hex character
(Go `net/url.ishex`/`unhex`). -/
def hexDigitVal (c : Char) : Option Nat :=
  if '0' ≤ c ∧ c ≤ '9' then some (c.toNat - '0'.toNat)
  else if 'a' ≤ c ∧ c ≤ 'f' then some (c.toNat - 'a'.toNat + 10)
  else if 'A' ≤ c ∧ c ≤ 'F' then some (c.toNat - 'A'.toNat + 10)
  else none

/-- Go `net/url.QueryUnescape` (external collaborator called at part_002 155):
decodes `%XY` hex escapes, maps `+` to space, and errors on a malformed `%`
escape. -/
def queryUnescape : List Char → Option (List Char)
  | [] => some []
  | c :: cs =>
    if c = '%' then
      match cs with
      | a :: b :: rest =>
        match hexDigitVal a, hexDigitVal b with
        | some x, some y => (queryUnescape rest).map (fun d => Char.ofNat (16 * x + y) :: d)
        | _, _ => none
      | _ => none
    else if c = '+' then
      (queryUnescape cs).map (fun d => ' ' :: d)
    else
      (queryUnescape cs).map (fun d => c :: d)

/-- `extractAPIKey` (part_002 139–162): Authorization bearer header first
(a non-empty header without the `Bearer ` marker falls through), then the
`X-API-Key` header, then the `apikey` query parameter, which is URL-decoded
once more (falling back to the raw value if decoding fails).  The empty list
stands for an absent header/parameter. -/
def extractAPIKey (authHeader xApiKeyHeader apikeyParam : List Char) : List Char :=
  match authHeader with
  | 'B' :: 'e' :: 'a' :: 'r' :: 'e' :: 'r' :: ' ' :: rest => rest
  | _ =>
    if xApiKeyHeader ≠ [] then xApiKeyHeader
    else if apikeyParam ≠ [] then
      match queryUnescape apikeyParam with
      | some decoded => decoded
      | none => apikeyParam
    else []

/-- Presenting credential `k` as `Authorization: Bearer k`. -/
def presentViaBearer (k : List Char) : List Char :=
  extractAPIKey (['B', 'e', 'a', 'r', 'e', 'r', ' '] ++ k) [] []

/-- Presenting credential `k` as the `X-API-Key` header.  (The HTTP layer
delivers header values verbatim.) -/
def presentViaXApiKey (k : List Char) : List Char :=
  extractAPIKey [] k []

/-- Presenting credential `k` as the `apikey` query parameter: the standard
query parser (`r.URL.Query().Get`) has already URL-decoded the parameter, so
the handler receives `k` itself and then unescapes it a second time. -/
def presentViaQueryParam (k : List Char) : List Char :=
  extractAPIKey [] [] k

/-- C9 counterexample: the credential `a%2Db` is classified as an admin key
when presented via either header, but the query-parameter channel URL-decodes
it a second time to `a-b`, which is classified as a tenant-scoped key for
client `a` — the three forms do not resolve to an identical classification. -/
theorem credential_channels_can_disagree :
    presentViaBearer ['a', '%', '2', 'D', 'b'] = ['a', '%', '2', 'D', 'b']
    ∧ presentViaXApiKey ['a', '%', '2', 'D', 'b'] = ['a', '%', '2', 'D', 'b']
    ∧ presentViaQueryParam ['a', '%', '2', 'D', 'b'] = ['a', '-', 'b']
    ∧ (parseAPIKey (presentViaBearer ['a', '%', '2', 'D', 'b'])).2.2 = true
    ∧ (parseAPIKey (presentViaQueryParam ['a', '%', '2', 'D', 'b'])).2.2 = false
    ∧ (parseAPIKey (presentViaQueryParam ['a', '%', '2', 'D', 'b'])).1 = ['a'] := by
  refine ⟨by decide, by decide, by decide, by decide, by decide, by decide⟩

theorem queryUnescape_fixpoint (k : List Char) (h1 : '%' ∉ k) (h2 : '+' ∉ k) :
    queryUnescape k = some k := by
  induction k with
  | nil => rfl
  | cons c cs ih =>
    have hc1 : c ≠ '%' := fun h => h1 (h ▸ List.mem_cons_self c cs)
    have hc2 : c ≠ '+' := fun h => h2 (h ▸ List.mem_cons_self c cs)
    have ih' := ih (fun h => h1 (List.mem_cons_of_mem c h))
      (fun h => h2 (List.mem_cons_of_mem c h))
    have hred : queryUnescape (c :: cs) = (queryUnescape cs).map (fun d => c :: d) := by
      rcases cs with _ | ⟨a, rest⟩
      · simp [queryUnescape, hc1, hc2]
      · rcases rest with _ | ⟨b, rest'⟩ <;> simp [queryUnescape, hc1, hc2]
    rw [hred, ih', Option.map_some']

/-- C9 (amended): for every credential string containing neither `%` nor `+`
— in particular every key in the documented key alphabet of alphanumerics,
hyphens and underscores — the bearer header, the `X-API-Key` header and the
`apikey` query parameter all deliver the same string to the classifier and
hence an identical classification.  (For strings containing `%` or `+` the
query channel's second URL-decoding can change the classification; see
`credential_channels_can_disagree`.) -/
theorem credential_channels_agree_without_escapes (k : List Char)
    (h1 : '%' ∉ k) (h2 : '+' ∉ k) :
    presentViaBearer k = k
    ∧ presentViaXApiKey k = k
    ∧ presentViaQueryParam k = k
    ∧ parseAPIKey (presentViaBearer k) = parseAPIKey (presentViaXApiKey k)
    ∧ parseAPIKey (presentViaQueryParam k) = parseAPIKey (presentViaBearer k) := by
  have hb : presentViaBearer k = k := rfl
  have hx : presentViaXApiKey k = k := by
    cases k with
    | nil => rfl
    | cons c cs => simp [presentViaXApiKey, extractAPIKey]
  have hq : presentViaQueryParam k = k := by
    cases hk : k with
    | nil => rfl
    | cons c cs =>
      have hu : queryUnescape (c :: cs) = some (c :: cs) := hk ▸ queryUnescape_fixpoint k h1 h2
      simp [presentViaQueryParam, extractAPIKey, hu]
  exact ⟨hb, hx, hq, by rw [hb, hx], by rw [hq, hb]⟩

/-- Witness for `credential_channels_agree_without_escapes` at the concrete
tenant credential `t-s`. -/
theorem credential_channels_agree_witness :
    presentViaBearer ['t', '-', 's'] = ['t', '-', 's']
    ∧ presentViaXApiKey ['t', '-', 's'] = ['t', '-', 's']
    ∧ presentViaQueryParam ['t', '-', 's'] = ['t', '-', 's'] :=
  ⟨(credential_channels_agree_without_escapes ['t', '-', 's'] (by decide) (by decide)).1,
   (credential_channels_agree_without_escapes ['t', '-', 's'] (by decide) (by decide)).2.1,
   (credential_channels_agree_without_escapes ['t', '-', 's'] (by decide) (by decide)).2.2.1⟩

/-! ## Handler access control (`handlers.go` 224–342, middleware part_002 86–136) -/

/-- Client context the middleware hands to handlers via the `X-Client-Name`
and `X-Is-Admin` request headers. -/
structure AuthContext where
  clientName : List Char
  isAdmin : Bool
deriving DecidableEq

/-- `authMiddleware` (part_002 86–115) composed with
`getClientAccessFromRequest` (part_002 127–136): an absent key or failed
validation short-circuits with 401 (`none`); otherwise the handler sees
`X-Client-Name` (set only for non-admin keys with a non-empty client) and
`X-Is-Admin`. -/
def authMiddleware (apiKeys : List (List Char)) (apiKey : List Char) :
    Option AuthContext :=
  if apiKey = [] then none
  else
    match parseAPIKey apiKey with
    | (clientName, clientAuth, isAdmin) =>
      if validateAPIKeyAccess apiKeys clientName clientAuth isAdmin then
        some { clientName := if isAdmin = false ∧ clientName ≠ [] then clientName else [],
               isAdmin := isAdmin }
      else none

/-- Outcome of a guarded read handler, by HTTP status class. -/
inductive HandlerOutcome where
  | unauthorized
  | badRequest
  | forbidden
  | proceed (clientName : List Char) (isAdmin : Bool)
  | accepted (clientName : List Char)
deriving DecidableEq

/-- `handleCurrentReleases` (handlers.go 224–240) up to the access decision:
missing query params → 400; authenticated non-admin addressing a different
client → 403; otherwise the query proceeds. -/
def handleCurrentReleasesOutcome (apiKeys : List (List Char))
    (apiKey requestedClient envName : List Char) : HandlerOutcome :=
  match authMiddleware apiKeys apiKey with
  | none => .unauthorized
  | some ctx =>
    if requestedClient = [] ∨ envName = [] then .badRequest
    else if ctx.isAdmin = false ∧ ctx.clientName ≠ requestedClient then .forbidden
    else .proceed ctx.clientName ctx.isAdmin

/-- `handleReleaseHistory` (handlers.go 302–321) up to the access decision. -/
def handleReleaseHistoryOutcome (apiKeys : List (List Char))
    (apiKey requestedClient envName nsName workload container : List Char) : HandlerOutcome :=
  match authMiddleware apiKeys apiKey with
  | none => .unauthorized
  | some ctx =>
    if nsName = [] ∨ workload = [] ∨ container = [] ∨ requestedClient = [] ∨ envName = []
    then .badRequest
    else if ctx.isAdmin = false ∧ ctx.clientName ≠ requestedClient then .forbidden
    else .proceed ctx.clientName ctx.isAdmin

/-- `handleManualCollect` (handlers.go 103–221), the ingestion *write*, up to
the upsert: missing path params or missing `image_tag`/`image_sha` → 400;
otherwise the release is written for the body's `client_name` (falling back to
the configured client when empty).  The handler never calls
`getClientAccessFromRequest` — there is no tenant check. -/
def handleManualCollectOutcome (apiKeys : List (List Char)) (configClient : List Char)
    (apiKey nsName kind wName container imageTag imageSHA bodyClient : List Char) :
    HandlerOutcome :=
  match authMiddleware apiKeys apiKey with
  | none => .unauthorized
  | some _ =>
    if nsName = [] ∨ kind = [] ∨ wName = [] ∨ container = [] then .badRequest
    else if imageTag = [] ∨ imageSHA = [] then .badRequest
    else .accepted (if bodyClient = [] then configClient else bodyClient)

/-- `handlePing` (handlers.go 559–590), the heartbeat *write*: missing
`client_name`/`env_name` → 400; otherwise the ping row is upserted for the
body's `client_name` — again with no tenant check. -/
def handlePingOutcome (apiKeys : List (List Char))
    (apiKey bodyClient bodyEnv : List Char) : HandlerOutcome :=
  match authMiddleware apiKeys apiKey with
  | none => .unauthorized
  | some _ =>
    if bodyClient = [] ∨ bodyEnv = [] then .badRequest
    else .accepted bodyClient

theorem authMiddleware_tenant (apiKeys : List (List Char)) (k a s : List Char)
    (hparse : parseAPIKey k = (a, s, false))
    (hvalid : validateAPIKeyAccess apiKeys a s false = true) :
    authMiddleware apiKeys k = some { clientName := a, isAdmin := false } := by
  have hk : k ≠ [] := by
    intro hk
    subst hk
    have : parseAPIKey ([] : List Char) = ([], [], true) := by decide
    rw [this] at hparse
    simp at hparse
  rcases parseAPIKey_tenant_inv k a s hparse with ⟨-, ha, -⟩
  unfold authMiddleware
  rw [if_neg hk, hparse]
  dsimp only
  rw [if_pos hvalid, if_pos ⟨rfl, ha⟩]

theorem authMiddleware_admin (apiKeys : List (List Char)) (k : List Char)
    (hk : k ≠ []) (hparse : parseAPIKey k = ([], k, true))
    (hvalid : validateAPIKeyAccess apiKeys [] k true = true) :
    authMiddleware apiKeys k = some { clientName := [], isAdmin := true } := by
  unfold authMiddleware
  rw [if_neg hk, hparse]
  dsimp only
  rw [if_pos hvalid, if_neg (by simp)]

/-- C5 counterexample: the original claim quantifies over every read *or
write* request, but the write endpoints perform no tenant check after
credential validation: with the valid tenant-scoped key `t-s` (tenant `t`),
a manual-collect write and a ping addressing client `x ≠ t` both succeed
(`accepted` for `x`, writing tenant `x`'s data) instead of failing with the
403 AccessDenied outcome the same key receives on the read path. -/
theorem write_paths_skip_tenant_check :
    handleManualCollectOutcome [['t', '-', 's'], ['a', 'd', 'm']] []
        ['t', '-', 's'] ['n'] ['D'] ['w'] ['c'] ['v'] ['h'] ['x']
      = .accepted ['x']
    ∧ handlePingOutcome [['t', '-', 's'], ['a', 'd', 'm']] ['t', '-', 's'] ['x'] ['e']
      = .accepted ['x']
    ∧ handleCurrentReleasesOutcome [['t', '-', 's'], ['a', 'd', 'm']] ['t', '-', 's']
        ['x'] ['e'] = .forbidden := by
  refine ⟨by decide, by decide, by decide⟩

/-- C5 (amended): on the guarded *read* handlers, a request authenticated with
a valid tenant-scoped credential for client `a` that addresses a different
client `B` fails with the dedicated 403 `forbidden` outcome — a constructor
distinct from the not-found path, which is only reachable past the access
check — while a valid admin credential proceeds for any addressed client; the
*write* endpoints (manual-collect ingestion and ping), by contrast, perform no
tenant check: the same valid tenant-scoped credential addressing any client
`B` is `accepted` and writes `B`'s data.  The original all-requests claim is
refuted by `write_paths_skip_tenant_check`. -/
theorem tenant_mismatch_forbidden_on_reads_only (apiKeys : List (List Char))
    (k a s B env nsName kind w c tag sha cfg : List Char) :
    (parseAPIKey k = (a, s, false) → validateAPIKeyAccess apiKeys a s false = true →
      B ≠ [] → env ≠ [] → nsName ≠ [] → w ≠ [] → c ≠ [] → B ≠ a →
        handleCurrentReleasesOutcome apiKeys k B env = .forbidden
        ∧ handleReleaseHistoryOutcome apiKeys k B env nsName w c = .forbidden)
    ∧ (k ≠ [] → parseAPIKey k = ([], k, true) → validateAPIKeyAccess apiKeys [] k true = true →
      B ≠ [] → env ≠ [] → nsName ≠ [] → w ≠ [] → c ≠ [] →
        handleCurrentReleasesOutcome apiKeys k B env = .proceed [] true
        ∧ handleReleaseHistoryOutcome apiKeys k B env nsName w c = .proceed [] true)
    ∧ (parseAPIKey k = (a, s, false) → validateAPIKeyAccess apiKeys a s false = true →
      B ≠ [] → env ≠ [] → nsName ≠ [] → kind ≠ [] → w ≠ [] → c ≠ [] →
      tag ≠ [] → sha ≠ [] →
        handleManualCollectOutcome apiKeys cfg k nsName kind w c tag sha B = .accepted B
        ∧ handlePingOutcome apiKeys k B env = .accepted B) := by
  refine ⟨?_, ?_, ?_⟩
  · intro hparse hvalid hB henv hns hw hc hBa
    have hmw := authMiddleware_tenant apiKeys k a s hparse hvalid
    constructor
    · unfold handleCurrentReleasesOutcome
      rw [hmw]
      dsimp only
      rw [if_neg (by simp [hB, henv])]
      rw [if_pos ⟨rfl, fun h => hBa h.symm⟩]
    · unfold handleReleaseHistoryOutcome
      rw [hmw]
      dsimp only
      rw [if_neg (by simp [hB, henv, hns, hw, hc])]
      rw [if_pos ⟨rfl, fun h => hBa h.symm⟩]
  · intro hk hparse hvalid hB henv hns hw hc
    have hmw := authMiddleware_admin apiKeys k hk hparse hvalid
    constructor
    · unfold handleCurrentReleasesOutcome
      rw [hmw]
      dsimp only
      rw [if_neg (by simp [hB, henv])]
      rw [if_neg (by simp)]
    · unfold handleReleaseHistoryOutcome
      rw [hmw]
      dsimp only
      rw [if_neg (by simp [hB, henv, hns, hw, hc])]
      rw [if_neg (by simp)]
  · intro hparse hvalid hB henv hns hkind hw hc htag hsha
    have hmw := authMiddleware_tenant apiKeys k a s hparse hvalid
    constructor
    · unfold handleManualCollectOutcome
      rw [hmw]
      dsimp only
      rw [if_neg (by simp [hns, hkind, hw, hc])]
      rw [if_neg (by simp [htag, hsha])]
      rw [if_neg hB]
    · unfold handlePingOutcome
      rw [hmw]
      dsimp only
      rw [if_neg (by simp [hB, henv])]

/-- Witness for `tenant_mismatch_forbidden_on_reads_only`: the tenant key
`t-s` addressing client `x` is rejected with 403 on the read path, the admin
key `adm` addressing the same client proceeds, and the same tenant key's
manual-collect write for client `x` is accepted. -/
theorem tenant_mismatch_forbidden_on_reads_only_witness :
    handleCurrentReleasesOutcome [['t', '-', 's'], ['a', 'd', 'm']] ['t', '-', 's'] ['x'] ['e']
      = .forbidden
    ∧ handleCurrentReleasesOutcome [['t', '-', 's'], ['a', 'd', 'm']] ['a', 'd', 'm'] ['x'] ['e']
      = .proceed [] true
    ∧ handleManualCollectOutcome [['t', '-', 's'], ['a', 'd', 'm']] []
        ['t', '-', 's'] ['n'] ['D'] ['w'] ['c'] ['v'] ['h'] ['x']
      = .accepted ['x'] :=
  ⟨((tenant_mismatch_forbidden_on_reads_only [['t', '-', 's'], ['a', 'd', 'm']]
      ['t', '-', 's'] ['t'] ['s'] ['x'] ['e'] ['n'] ['D'] ['w'] ['c'] ['v'] ['h'] []).1
      (by decide) (by decide) (by decide) (by decide) (by decide) (by decide) (by decide)
      (by decide)).1,
   ((tenant_mismatch_forbidden_on_reads_only [['t', '-', 's'], ['a', 'd', 'm']]
      ['a', 'd', 'm'] [] [] ['x'] ['e'] ['n'] ['D'] ['w'] ['c'] ['v'] ['h'] []).2.1
      (by decide) (by decide) (by decide) (by decide) (by decide) (by decide) (by decide)
      (by decide)).1,
   ((tenant_mismatch_forbidden_on_reads_only [['t', '-', 's'], ['a', 'd', 'm']]
      ['t', '-', 's'] ['t'] ['s'] ['x'] ['e'] ['n'] ['D'] ['w'] ['c'] ['v'] ['h'] []).2.2
      (by decide) (by decide) (by decide) (by decide) (by decide) (by decide) (by decide)
      (by decide) (by decide) (by decide)).1⟩

/-! ## Current-state queries (`sqlite.go` 66–166 and 212–275) -/

/-- Correlation group of the `MAX(last_seen)` subqueries:
`(namespace, workload_name, container_name, client_name, env_name)`. -/
def groupKey (r : Release) : String × String × String × String × String :=
  (r.ns, r.workloadName, r.containerName, r.clientName, r.envName)

/-- SQL `MAX` aggregate over a column (`none` = `NULL` on the empty set). -/
def maxLastSeen : List Nat → Option Nat
  | [] => none
  | a :: l =>
    match maxLastSeen l with
    | none => some a
    | some b => some (max a b)

theorem maxLastSeen_eq_some_iff (l : List Nat) (m : Nat) :
    maxLastSeen l = some m ↔ m ∈ l ∧ ∀ x ∈ l, x ≤ m := by
  induction l generalizing m with
  | nil => simp [maxLastSeen]
  | cons a l ih =>
    cases hl : maxLastSeen l with
    | none =>
      have hnil : l = [] := by
        cases l with
        | nil => rfl
        | cons b t =>
          exfalso
          have hne : maxLastSeen (b :: t) ≠ none := by
            simp only [maxLastSeen]
            cases maxLastSeen t <;> simp
          exact hne hl
      subst hnil
      simp [maxLastSeen]
      omega
    | some b =>
      simp only [maxLastSeen, hl]
      rcases (ih b).mp hl with ⟨hbmem, hbub⟩
      constructor
      · intro h
        have hm : m = max a b := by simpa using h.symm
        subst hm
        constructor
        · rcases Nat.le_total a b with hab | hba
          · exact List.mem_cons_of_mem a (by simpa [Nat.max_eq_right hab] using hbmem)
          · simp [Nat.max_eq_left hba]
        · intro x hx
          rcases List.mem_cons.mp hx with rfl | hx
          · exact Nat.le_max_left _ _
          · exact le_trans (hbub x hx) (Nat.le_max_right _ _)
      · rintro ⟨hmem, hub⟩
        have hba : b ≤ m := hub b (List.mem_cons_of_mem a hbmem)
        have ham : a ≤ m := hub a (List.mem_cons_self a l)
        have hmmax : m ≤ max a b := by
          rcases List.mem_cons.mp hmem with rfl | hx
          · exact Nat.le_max_left _ _
          · exact le_trans (hbub m hx) (Nat.le_max_right a b)
        have hme : m = max a b := le_antisymm hmmax (by
          rcases Nat.le_total a b with hab | hba2
          · simpa [Nat.max_eq_right hab] using hba
          · simpa [Nat.max_eq_left hba2] using ham)
        simp [hme]

/-- `GetCurrentReleases` (66–110): keep rows whose `last_seen` equals the
group maximum computed over partition-mates with a non-empty `image_sha`
(`length(r2.image_sha) > 0` appears inside the subquery only). -/
def getCurrentReleases (db : List Release) : List Release :=
  db.filter (fun r =>
    maxLastSeen ((db.filter (fun x => groupKey x == groupKey r
      && decide (0 < x.imageSHA.length))).map Release.lastSeen) == some r.lastSeen)

/-- The `client_name`/`env_name` conditions `GetCurrentReleasesFiltered`
appends for non-empty arguments (135–142). -/
def matchesTenantFilter (clientName envName : String) (r : Release) : Bool :=
  (clientName == "" || r.clientName == clientName)
  && (envName == "" || r.envName == envName)

/-- `GetCurrentReleasesFiltered` (113–166): group-maximum selection — with
*no* `image_sha` restriction in its subquery — plus the tenant filter. -/
def getCurrentReleasesFiltered (db : List Release) (clientName envName : String) :
    List Release :=
  db.filter (fun r =>
    (maxLastSeen ((db.filter (fun x => groupKey x == groupKey r)).map Release.lastSeen)
      == some r.lastSeen)
    && matchesTenantFilter clientName envName r)

/-- A release fact whose digest is empty. -/
def exEmptySha : Release := { exR1 with imageSHA := "" }

/-- C8 counterexample: a ledger holding one fact with an empty digest.
`GetCurrentReleasesFiltered` (the `CurrentState` implementation behind
`/api/releases/current`) returns that fact — it does not exclude empty-digest
facts, refuting "excludes every fact with an empty digest from the result". -/
theorem current_state_filtered_returns_empty_digest :
    exEmptySha.imageSHA = ""
    ∧ getCurrentReleasesFiltered [exEmptySha] "" "" = [exEmptySha] := by
  refine ⟨rfl, by decide⟩

/-- C8 (amended): for every ledger and tenant filter,
`GetCurrentReleasesFiltered` returns exactly the facts that match the filter
and carry the maximum `last_observed_at` of their `(component, tenant)` group;
it performs no empty-digest exclusion itself, but on ledgers in which every
fact has a non-empty digest (the invariant the writers maintain) the
unfiltered `GetCurrentReleases` — whose subquery ignores empty-digest rows —
agrees with the unrestricted filtered query. -/
theorem current_state_filtered_characterization (db : List Release)
    (cn en : String) (r : Release) :
    (r ∈ getCurrentReleasesFiltered db cn en ↔
      r ∈ db ∧ matchesTenantFilter cn en r = true
        ∧ ∀ x ∈ db, groupKey x = groupKey r → x.lastSeen ≤ r.lastSeen)
    ∧ ((∀ x ∈ db, x.imageSHA ≠ "") →
        getCurrentReleases db = getCurrentReleasesFiltered db "" "") := by
  constructor
  · unfold getCurrentReleasesFiltered
    rw [List.mem_filter]
    constructor
    · rintro ⟨hmem, hcond⟩
      rcases Bool.and_eq_true_iff.mp hcond with ⟨hmax, hfil⟩
      refine ⟨hmem, hfil, ?_⟩
      intro x hx hgx
      have := (maxLastSeen_eq_some_iff _ _).mp (beq_iff_eq.mp hmax)
      refine this.2 x.lastSeen (List.mem_map.mpr ⟨x, ?_, rfl⟩)
      exact List.mem_filter.mpr ⟨hx, beq_iff_eq.mpr hgx⟩
    · rintro ⟨hmem, hfil, hub⟩
      refine ⟨hmem, Bool.and_eq_true_iff.mpr ⟨beq_iff_eq.mpr ?_, hfil⟩⟩
      apply (maxLastSeen_eq_some_iff _ _).mpr
      constructor
      · exact List.mem_map.mpr ⟨r, List.mem_filter.mpr ⟨hmem, beq_iff_eq.mpr rfl⟩, rfl⟩
      · intro v hv
        rcases List.mem_map.mp hv with ⟨x, hx, rfl⟩
        rcases List.mem_filter.mp hx with ⟨hxdb, hxg⟩
        exact hub x hxdb (beq_iff_eq.mp hxg)
  · intro hsha
    unfold getCurrentReleases getCurrentReleasesFiltered
    apply List.filter_congr
    intro x hx
    have hinner : db.filter (fun y => groupKey y == groupKey x
        && decide (0 < y.imageSHA.length)) = db.filter (fun y => groupKey y == groupKey x) := by
      apply List.filter_congr
      intro y hy
      have hpos : 0 < y.imageSHA.length := by
        have hne := hsha y hy
        cases hys : y.imageSHA with
        | mk data =>
          cases data with
          | nil => exact absurd hys hne
          | cons c cs => simp [String.length]
      rw [decide_eq_true hpos, Bool.and_true]
    rw [hinner]
    simp [matchesTenantFilter]

/-- Witness for `current_state_filtered_characterization` at a one-fact
ledger. -/
theorem current_state_filtered_characterization_witness :
    exR1 ∈ getCurrentReleasesFiltered [exR1] "" ""
    ∧ getCurrentReleases [exR1] = getCurrentReleasesFiltered [exR1] "" "" :=
  ⟨(current_state_filtered_characterization [exR1] "" "" exR1).1.mpr
      ⟨by decide, by decide, by decide⟩,
   (current_state_filtered_characterization [exR1] "" "" exR1).2 (by decide)⟩

/-- Outcome of `GetCurrentReleaseByWorkload` as consumed by `handleBadgeCore`
(handlers.go 419–442): `nil, nil` → not-found badge; a single row → success
badge; the "multiple releases found" error → the distinct multiple-found
badge. -/
inductive ResolveResult where
  | notFound
  | found (r : Release)
  | multipleFound (namespaces : List String)
deriving DecidableEq

/-- Rows selected by the `GetCurrentReleaseByWorkload` query (212–235):
match on workload type/name, container and tenant — but *not* namespace —
plus the correlated group-maximum condition (no `image_sha` restriction
here). -/
def workloadMatches (db : List Release) (wt wn cn client env : String) : List Release :=
  db.filter (fun r =>
    r.workloadType == wt && r.workloadName == wn && r.containerName == cn
    && r.clientName == client && r.envName == env
    && (maxLastSeen ((db.filter (fun x => groupKey x == groupKey r)).map Release.lastSeen)
        == some r.lastSeen))

/-- `GetCurrentReleaseByWorkload` (212–275). -/
def getCurrentReleaseByWorkload (db : List Release) (wt wn cn client env : String) :
    ResolveResult :=
  match workloadMatches db wt wn cn client env with
  | [] => .notFound
  | [r] => .found r
  | rs => .multipleFound (rs.map Release.ns)

/-- C3 (confirmed): `ResolveByName` returns `notFound` exactly when no
latest-timestamp fact matches, returns the unique fact on exactly one match,
and whenever the latest-timestamp result set spans two distinct namespaces it
returns the `multipleFound` (AmbiguousMatch) condition carrying both
namespaces — a constructor distinct from `notFound` and from any single
`found` result. -/
theorem resolve_by_name_cases (db : List Release) (wt wn cn client env : String) :
    (getCurrentReleaseByWorkload db wt wn cn client env = .notFound ↔
      workloadMatches db wt wn cn client env = [])
    ∧ (∀ r, workloadMatches db wt wn cn client env = [r] →
        getCurrentReleaseByWorkload db wt wn cn client env = .found r)
    ∧ (∀ r s, r ∈ workloadMatches db wt wn cn client env →
        s ∈ workloadMatches db wt wn cn client env → r.ns ≠ s.ns →
        getCurrentReleaseByWorkload db wt wn cn client env
            = .multipleFound ((workloadMatches db wt wn cn client env).map Release.ns)
          ∧ r.ns ∈ (workloadMatches db wt wn cn client env).map Release.ns
          ∧ s.ns ∈ (workloadMatches db wt wn cn client env).map Release.ns
          ∧ getCurrentReleaseByWorkload db wt wn cn client env ≠ .notFound
          ∧ (∀ x, getCurrentReleaseByWorkload db wt wn cn client env ≠ .found x)) := by
  refine ⟨?_, ?_, ?_⟩
  · unfold getCurrentReleaseByWorkload
    cases hm : workloadMatches db wt wn cn client env with
    | nil => simp
    | cons a as =>
      cases as with
      | nil => simp
      | cons b bs => simp
  · intro r hr
    unfold getCurrentReleaseByWorkload
    rw [hr]
  · intro r s hrm hsm hns
    have htwo : ∃ a b bs, workloadMatches db wt wn cn client env = a :: b :: bs := by
      cases hm : workloadMatches db wt wn cn client env with
      | nil => rw [hm] at hrm; exact absurd hrm (List.not_mem_nil r)
      | cons a as =>
        cases as with
        | nil =>
          rw [hm] at hrm hsm
          rcases List.mem_singleton.mp hrm with rfl
          rcases List.mem_singleton.mp hsm with rfl
          exact absurd rfl hns
        | cons b bs => exact ⟨a, b, bs, rfl⟩
    rcases htwo with ⟨a, b, bs, hm⟩
    have heq : getCurrentReleaseByWorkload db wt wn cn client env
        = .multipleFound ((workloadMatches db wt wn cn client env).map Release.ns) := by
      unfold getCurrentReleaseByWorkload
      rw [hm]
    refine ⟨heq, List.mem_map.mpr ⟨r, hrm, rfl⟩, List.mem_map.mpr ⟨s, hsm, rfl⟩, ?_, ?_⟩
    · rw [heq]; simp
    · intro x
      rw [heq]; simp

/-- A second fact with the same workload name/container/tenant as `exR1` but
in a different namespace (and its own digest/timestamp). -/
def exOtherNs : Release :=
  { exR1 with id := 2, ns := "ns2", imageSHA := "sha2", firstSeen := 7, lastSeen := 7 }

/-- Witness for `resolve_by_name_cases`: an empty ledger resolves to
`notFound`; a one-fact ledger resolves to that fact; with the same name in two
namespaces within one tenant the result is the AmbiguousMatch condition. -/
theorem resolve_by_name_cases_witness :
    getCurrentReleaseByWorkload [] "Deployment" "w" "c" "A" "e" = .notFound
    ∧ getCurrentReleaseByWorkload [exR1] "Deployment" "w" "c" "A" "e" = .found exR1
    ∧ getCurrentReleaseByWorkload [exR1, exOtherNs] "Deployment" "w" "c" "A" "e"
        = .multipleFound
            ((workloadMatches [exR1, exOtherNs] "Deployment" "w" "c" "A" "e").map Release.ns) :=
  ⟨(resolve_by_name_cases [] "Deployment" "w" "c" "A" "e").1.mpr (by decide),
   (resolve_by_name_cases [exR1] "Deployment" "w" "c" "A" "e").2.1 exR1 (by decide),
   ((resolve_by_name_cases [exR1, exOtherNs] "Deployment" "w" "c" "A" "e").2.2 exR1 exOtherNs
      (by decide) (by decide) (by decide)).1⟩

/-! ## Retention (`CleanupOldReleases`, sqlite.go 316–341) -/

/-- Partition key of the `ROW_NUMBER()` window:
`(namespace, workload_name, container_name)` — the tenant columns
(`client_name`, `env_name`) are *not* part of the partition. -/
def partKey (r : Release) : String × String × String :=
  (r.ns, r.workloadName, r.containerName)

/-- `x` sorts strictly ahead of `r` in the window's
`ORDER BY last_seen DESC` order.  SQLite leaves the relative order of
`last_seen` ties unspecified; it is refined here deterministically by
ascending `id`.  Theorems concluding "exactly the most recent survive" assume
distinct `last_seen` values within the partition, so they hold under every
refinement of the tie order. -/
def aheadOf (x r : Release) : Prop :=
  r.lastSeen < x.lastSeen ∨ (x.lastSeen = r.lastSeen ∧ x.id < r.id)

instance instDecidableAheadOf (x r : Release) : Decidable (aheadOf x r) := by
  unfold aheadOf
  infer_instance

/-- Number of partition-mates ranked ahead of `r`; `r`'s `ROW_NUMBER()` is
`rankedAbove db r + 1`. -/
def rankedAbove (db : List Release) (r : Release) : Nat :=
  (db.filter (fun x => partKey x == partKey r && decide (aheadOf x r))).length

/-- `CleanupOldReleases`: `DELETE` every row whose row number within its
partition exceeds 10, i.e. keep the rows with fewer than 10 partition-mates
ahead of them. -/
def cleanupOldReleases (db : List Release) : List Release :=
  db.filter (fun r => decide (rankedAbove db r < 10))

theorem aheadOf_trans (x y z : Release) (h1 : aheadOf x y) (h2 : aheadOf y z) :
    aheadOf x z := by
  unfold aheadOf at *
  omega

theorem aheadOf_irrefl (x : Release) : ¬ aheadOf x x := by
  unfold aheadOf
  omega

theorem aheadOf_total_of_id_ne (x y : Release) (h : x.id ≠ y.id) :
    aheadOf x y ∨ aheadOf y x := by
  unfold aheadOf
  omega

theorem countP_lt_of_witness {α : Type} (l : List α) (p q : α → Bool) (w : α)
    (hw : w ∈ l) (hq : q w = true) (hp : p w = false)
    (himp : ∀ x, p x = true → q x = true) : l.countP p < l.countP q := by
  induction l with
  | nil => cases hw
  | cons a t ih =>
    rw [List.countP_cons, List.countP_cons]
    have hmono : t.countP p ≤ t.countP q := List.countP_mono_left (fun x _ => himp x)
    rcases List.mem_cons.mp hw with rfl | hw'
    · rw [hp, hq]
      simp only [Bool.false_eq_true, if_false, if_true]
      omega
    · have hle : (if p a = true then 1 else 0) ≤ (if q a = true then 1 else 0) := by
        by_cases hpa : p a = true
        · rw [if_pos hpa, if_pos (himp a hpa)]
        · rw [if_neg hpa]
          omega
      have := ih hw'
      omega

theorem rankedAbove_lt_of_aheadOf (db : List Release) (r s : Release) (hs : s ∈ db)
    (hpart : partKey r = partKey s) (hah : aheadOf s r) :
    rankedAbove db s < rankedAbove db r := by
  unfold rankedAbove
  rw [← List.countP_eq_length_filter, ← List.countP_eq_length_filter]
  apply countP_lt_of_witness db _ _ s hs
  · rw [Bool.and_eq_true_iff]
    exact ⟨beq_iff_eq.mpr hpart.symm, decide_eq_true hah⟩
  · rw [Bool.and_eq_false_iff]
    right
    rw [decide_eq_false_iff_not]
    exact aheadOf_irrefl s
  · intro x hx
    rcases Bool.and_eq_true_iff.mp hx with ⟨hxp, hxa⟩
    rw [Bool.and_eq_true_iff]
    refine ⟨beq_iff_eq.mpr (by rw [beq_iff_eq.mp hxp, ← hpart]), ?_⟩
    exact decide_eq_true (aheadOf_trans x s r (of_decide_eq_true hxa) hah)

theorem mem_cleanup_iff (db : List Release) (r : Release) :
    r ∈ cleanupOldReleases db ↔ r ∈ db ∧ rankedAbove db r < 10 := by
  unfold cleanupOldReleases
  rw [List.mem_filter, decide_eq_true_eq]

/-- C2 (amended): retention keeps, per `(namespace, workload_name,
container_name)` partition counted *across all tenants* — not per
`(component, tenant)` — at most 10 facts; and when `last_seen` values within
a partition are distinct, a fact survives exactly when fewer than 10 facts of
its whole partition (any tenant) are more recent.  In particular, 15
distinct-digest facts for one `(component, tenant)` in an otherwise empty
partition are pruned to the 10 most recent.  The per-`(component, tenant)`
reading of the original claim is refuted by
`cleanup_prunes_across_tenants`. -/
theorem cleanup_keeps_at_most_ten_per_partition (db : List Release)
    (hids : (db.map Release.id).Nodup) :
    (∀ p : String × String × String,
      ((cleanupOldReleases db).filter (fun r => partKey r == p)).length ≤ 10)
    ∧ (∀ r ∈ db,
        (∀ x ∈ db, ∀ y ∈ db, partKey x = partKey r → partKey y = partKey r →
          x.lastSeen = y.lastSeen → x = y) →
        (r ∈ cleanupOldReleases db ↔
          (db.filter (fun x => partKey x == partKey r
            && decide (r.lastSeen < x.lastSeen))).length < 10)) := by
  have hdbNodup : db.Nodup := List.Nodup.of_map _ hids
  constructor
  · intro p
    have hSdb : ∀ r ∈ (cleanupOldReleases db).filter (fun r => partKey r == p), r ∈ db := by
      intro r hr
      exact ((mem_cleanup_iff db r).mp (List.mem_filter.mp hr).1).1
    have hSrank : ∀ r ∈ (cleanupOldReleases db).filter (fun r => partKey r == p),
        rankedAbove db r < 10 := by
      intro r hr
      exact ((mem_cleanup_iff db r).mp (List.mem_filter.mp hr).1).2
    have hSpart : ∀ r ∈ (cleanupOldReleases db).filter (fun r => partKey r == p),
        partKey r = p := by
      intro r hr
      exact beq_iff_eq.mp (List.mem_filter.mp hr).2
    have hSnodup : ((cleanupOldReleases db).filter (fun r => partKey r == p)).Nodup :=
      (hdbNodup.filter _).filter _
    have hinj : ∀ x ∈ (cleanupOldReleases db).filter (fun r => partKey r == p),
        ∀ y ∈ (cleanupOldReleases db).filter (fun r => partKey r == p),
        rankedAbove db x = rankedAbove db y → x = y := by
      intro x hx y hy hrank
      by_contra hne
      have hidne : x.id ≠ y.id := fun h =>
        hne (List.inj_on_of_nodup_map hids (hSdb x hx) (hSdb y hy) h)
      have hpxy : partKey x = partKey y := (hSpart x hx).trans (hSpart y hy).symm
      rcases aheadOf_total_of_id_ne x y hidne with hxy | hyx
      · have := rankedAbove_lt_of_aheadOf db y x (hSdb x hx) hpxy.symm hxy
        omega
      · have := rankedAbove_lt_of_aheadOf db x y (hSdb y hy) hpxy hyx
        omega
    have hmapNodup :
        (((cleanupOldReleases db).filter (fun r => partKey r == p)).map
          (rankedAbove db)).Nodup := List.Nodup.map_on hinj hSnodup
    have hsub : (((cleanupOldReleases db).filter (fun r => partKey r == p)).map
        (rankedAbove db)).toFinset ⊆ Finset.range 10 := by
      intro v hv
      rw [List.mem_toFinset] at hv
      rcases List.mem_map.mp hv with ⟨r, hr, rfl⟩
      exact Finset.mem_range.mpr (hSrank r hr)
    calc ((cleanupOldReleases db).filter (fun r => partKey r == p)).length
        = (((cleanupOldReleases db).filter (fun r => partKey r == p)).map
            (rankedAbove db)).length := (List.length_map _ _).symm
      _ = (((cleanupOldReleases db).filter (fun r => partKey r == p)).map
            (rankedAbove db)).toFinset.card := (List.toFinset_card_of_nodup hmapNodup).symm
      _ ≤ (Finset.range 10).card := Finset.card_le_card hsub
      _ = 10 := Finset.card_range 10
  · intro r hr hdist
    have hrank : rankedAbove db r
        = (db.filter (fun x => partKey x == partKey r
            && decide (r.lastSeen < x.lastSeen))).length := by
      unfold rankedAbove
      rw [← List.countP_eq_length_filter, ← List.countP_eq_length_filter]
      apply List.countP_congr
      intro x hx
      by_cases hp : (partKey x == partKey r) = true
      · rw [hp, Bool.true_and, Bool.true_and]
        have hiff : aheadOf x r ↔ r.lastSeen < x.lastSeen := by
          constructor
          · rintro (h | ⟨hls, hid⟩)
            · exact h
            · exact absurd (congrArg Release.id
                (hdist x hx r hr (beq_iff_eq.mp hp) rfl hls)) (by omega)
          · exact Or.inl
        simp [hiff]
      · rw [Bool.not_eq_true] at hp
        rw [hp, Bool.false_and, Bool.false_and]
    rw [mem_cleanup_iff, hrank]
    exact ⟨fun h => h.2, fun h => ⟨hr, h⟩⟩

/-- Row builder for the retention examples: one shared component
`("n", "w", "c")`, tenant = `(client, "e")`, digest `sha`, all timestamps
`t`. -/
def mkRel (i : Nat) (client sha : String) (t : Nat) : Release :=
  { id := i, ns := "n", workloadName := "w", workloadType := "Deployment",
    containerName := "c", imageRepo := "rp", imageName := "im", imageTag := "v",
    imageSHA := sha, clientName := client, envName := "e",
    firstSeen := t, lastSeen := t, createdAt := t, updatedAt := t }

/-- One old fact of tenant `A` and ten newer facts of tenant `B`, all for the
same component. -/
def dbCross : List Release :=
  [mkRel 1 "A" "s0" 1,
   mkRel 2 "B" "t1" 2, mkRel 3 "B" "t2" 3, mkRel 4 "B" "t3" 4,
   mkRel 5 "B" "t4" 5, mkRel 6 "B" "t5" 6, mkRel 7 "B" "t6" 7,
   mkRel 8 "B" "t7" 8, mkRel 9 "B" "t8" 9, mkRel 10 "B" "t9" 10,
   mkRel 11 "B" "ta" 11]

/-- C2 counterexample: in `dbCross`, tenant `A`'s `(component, tenant)` group
consists of exactly one fact — its own most recent — yet retention deletes it,
because the `ROW_NUMBER()` window partitions by component only and tenant
`B`'s ten newer facts fill the partition.  The surviving facts are therefore
*not* the 10 greatest per `(component, tenant)` group. -/
theorem cleanup_prunes_across_tenants :
    dbCross.filter (fun x => groupKey x == groupKey (mkRel 1 "A" "s0" 1))
      = [mkRel 1 "A" "s0" 1]
    ∧ (cleanupOldReleases dbCross).filter (fun x => x.clientName == "A") = []
    ∧ (cleanupOldReleases dbCross).length = 10 := by
  refine ⟨by decide, by decide, by decide⟩

/-- Fifteen distinct-digest facts for one `(component, tenant)`, `last_seen`
1..15. -/
def dbFifteen : List Release :=
  [mkRel 1 "A" "d01" 1, mkRel 2 "A" "d02" 2, mkRel 3 "A" "d03" 3,
   mkRel 4 "A" "d04" 4, mkRel 5 "A" "d05" 5, mkRel 6 "A" "d06" 6,
   mkRel 7 "A" "d07" 7, mkRel 8 "A" "d08" 8, mkRel 9 "A" "d09" 9,
   mkRel 10 "A" "d10" 10, mkRel 11 "A" "d11" 11, mkRel 12 "A" "d12" 12,
   mkRel 13 "A" "d13" 13, mkRel 14 "A" "d14" 14, mkRel 15 "A" "d15" 15]

/-- Witness for `cleanup_keeps_at_most_ten_per_partition`: on the 15-fact
single-tenant ledger the partition bound holds, the survival criterion applies
to the fact with `last_seen = 5` (pruned: ten more-recent partition-mates),
and the survivors are exactly the 10 most recent. -/
theorem cleanup_keeps_at_most_ten_per_partition_witness :
    ((cleanupOldReleases dbFifteen).filter
        (fun r => partKey r == ("n", "w", "c"))).length ≤ 10
    ∧ (mkRel 5 "A" "d05" 5 ∈ cleanupOldReleases dbFifteen ↔
        (dbFifteen.filter (fun x => partKey x == partKey (mkRel 5 "A" "d05" 5)
          && decide ((mkRel 5 "A" "d05" 5).lastSeen < x.lastSeen))).length < 10)
    ∧ (cleanupOldReleases dbFifteen).map Release.lastSeen
        = [6, 7, 8, 9, 10, 11, 12, 13, 14, 15] :=
  ⟨(cleanup_keeps_at_most_ten_per_partition dbFifteen (by decide)).1 ("n", "w", "c"),
   (cleanup_keeps_at_most_ten_per_partition dbFifteen (by decide)).2
     (mkRel 5 "A" "d05" 5) (by decide) (by decide),
   by decide⟩

/-! ## Outbox drain (`SyncPendingReleases`, sync/client.go 38–66) -/

/-- A row of the `pending_releases` table (struct `PendingRelease` in
`models.go`); same columns as `releases`. -/
structure PendingRelease where
  id : Nat
  ns : String
  workloadName : String
  workloadType : String
  containerName : String
  imageRepo : String
  imageName : String
  imageTag : String
  imageSHA : String
  clientName : String
  envName : String
  firstSeen : Nat
  lastSeen : Nat
  createdAt : Nat
  updatedAt : Nat
deriving DecidableEq

/-- `GetPendingReleases` (sqlite.go 370–401): all rows with a non-empty
digest.  The `ORDER BY created_at ASC` only fixes the enumeration order of
the drain loop, which the final state does not depend on, so it is not
modelled. -/
def getPendingReleases (db : List PendingRelease) : List PendingRelease :=
  db.filter (fun r => decide (0 < r.imageSHA.length))

/-- `DeletePendingRelease` (sqlite.go 404–408): delete by id. -/
def deletePendingRelease (db : List PendingRelease) (i : Nat) : List PendingRelease :=
  db.filter (fun e => e.id != i)

/-- The drain loop of `SyncPendingReleases` (sync/client.go 51–63) over the
snapshot `todo`: on successful delivery delete the entry, on failure log and
`continue` to the next entry.  `deliver` abstracts `syncSingleRelease`
(network push; success = HTTP 200); the local delete is modelled as always
succeeding. -/
def syncCycle (deliver : PendingRelease → Bool) (db : List PendingRelease) :
    List PendingRelease → List PendingRelease
  | [] => db
  | e :: es =>
    if deliver e then syncCycle deliver (deletePendingRelease db e.id) es
    else syncCycle deliver db es

/-- `SyncPendingReleases` (sync/client.go 38–66): enumerate the pending
entries, then drain. -/
def syncPendingReleases (deliver : PendingRelease → Bool)
    (db : List PendingRelease) : List PendingRelease :=
  syncCycle deliver db (getPendingReleases db)

theorem syncCycle_eq_filter (deliver : PendingRelease → Bool)
    (todo : List PendingRelease) :
    ∀ db : List PendingRelease, (∀ t ∈ todo, t ∈ db) → todo.Nodup →
    (db.map PendingRelease.id).Nodup →
    syncCycle deliver db todo
      = db.filter (fun e => !(todo.contains e && deliver e)) := by
  induction todo with
  | nil =>
    intro db _ _ _
    simp [syncCycle]
  | cons e es ih =>
    intro db htodo hnodup hids
    rcases List.nodup_cons.mp hnodup with ⟨hens, hesnd⟩
    have hedb : e ∈ db := htodo e (List.mem_cons_self e es)
    have hidinj : ∀ x ∈ db, ∀ y ∈ db, x.id = y.id → x = y := fun x hx y hy h =>
      List.inj_on_of_nodup_map hids hx hy h
    by_cases hdel : deliver e = true
    · simp only [syncCycle, hdel, if_true]
      have hsub : List.Sublist (deletePendingRelease db e.id) db :=
        List.filter_sublist db
      have hids' : ((deletePendingRelease db e.id).map PendingRelease.id).Nodup :=
        (hsub.map PendingRelease.id).nodup hids
      have htodo' : ∀ t ∈ es, t ∈ deletePendingRelease db e.id := by
        intro t ht
        have htdb : t ∈ db := htodo t (List.mem_cons_of_mem e ht)
        have htne : t ≠ e := fun h => hens (h ▸ ht)
        refine List.mem_filter.mpr ⟨htdb, bne_iff_ne.mpr ?_⟩
        exact fun h => htne (hidinj t htdb e hedb h)
      rw [ih (deletePendingRelease db e.id) htodo' hesnd hids']
      unfold deletePendingRelease
      rw [List.filter_filter]
      apply List.filter_congr
      intro x hx
      by_cases hxe : x = e
      · subst hxe
        simp [hdel]
      · have hxid : (x.id != e.id) = true := bne_iff_ne.mpr
          (fun h => hxe (hidinj x hx e hedb h))
        rw [List.contains_cons, beq_eq_false_iff_ne.mpr hxe, Bool.false_or, hxid,
          Bool.and_true]
    · rw [Bool.not_eq_true] at hdel
      simp only [syncCycle, hdel, Bool.false_eq_true, if_false]
      rw [ih db (fun t ht => htodo t (List.mem_cons_of_mem e ht)) hesnd hids]
      apply List.filter_congr
      intro x hx
      by_cases hxe : x = e
      · subst hxe
        simp [hdel]
      · rw [List.contains_cons, beq_eq_false_iff_ne.mpr hxe, Bool.false_or]

/-- C6 (confirmed): one drain cycle treats every enumerated entry
independently — the final pending set is a pointwise filter: an entry is gone
exactly when it was enumerated (non-empty digest) and its own delivery
succeeded; a failed entry stays unchanged, and a failure never affects what
happens to any other entry in the same cycle. -/
theorem sync_outbox_entries_independent (deliver : PendingRelease → Bool)
    (db : List PendingRelease) (hids : (db.map PendingRelease.id).Nodup) :
    syncPendingReleases deliver db
      = db.filter (fun e => !(decide (0 < e.imageSHA.length) && deliver e)) := by
  unfold syncPendingReleases
  rw [syncCycle_eq_filter deliver (getPendingReleases db) db
      (fun t ht => (List.mem_filter.mp ht).1)
      ((List.Nodup.of_map _ hids).filter _)
      hids]
  apply List.filter_congr
  intro x hx
  have hcont : (getPendingReleases db).contains x = decide (0 < x.imageSHA.length) := by
    cases hsha : decide (0 < x.imageSHA.length) with
    | true =>
      have hmem : x ∈ getPendingReleases db := List.mem_filter.mpr ⟨hx, hsha⟩
      exact List.elem_iff.mpr hmem
    | false =>
      apply Bool.eq_false_iff.mpr
      intro hcon
      have hmem : x ∈ getPendingReleases db := List.elem_iff.mp hcon
      have := (List.mem_filter.mp hmem).2
      rw [hsha] at this
      exact Bool.false_ne_true this
  rw [hcont]

/-- Pending-entry builder for the outbox example. -/
def mkPend (i : Nat) (sha : String) : PendingRelease :=
  { id := i, ns := "n", workloadName := "w", workloadType := "Deployment",
    containerName := "c", imageRepo := "rp", imageName := "im", imageTag := "v",
    imageSHA := sha, clientName := "A", envName := "e",
    firstSeen := i, lastSeen := i, createdAt := i, updatedAt := i }

/-- Witness for `sync_outbox_entries_independent`: of three pending entries
where delivery of the second fails, the first and third are deleted in the
same cycle and only the second remains pending, unchanged. -/
theorem sync_outbox_entries_independent_witness :
    syncPendingReleases (fun e => e.id != 2)
        [mkPend 1 "s1", mkPend 2 "s2", mkPend 3 "s3"] = [mkPend 2 "s2"] := by
  rw [sync_outbox_entries_independent (fun e => e.id != 2)
      [mkPend 1 "s1", mkPend 2 "s2", mkPend 3 "s3"] (by decide)]
  decide

/-! ## Liveness tracker (`GetSlavePingStatus`, sqlite.go 478–506;
`handleClientsEnvironments`, handlers.go 497–502)

Ping timestamps are `Int` seconds (Go durations may be negative when a
heartbeat is in the future relative to `now`; the 10/15-minute thresholds are
600/900 seconds). -/

/-- A row of the `slave_pings` table (struct `SlavePing` in `models.go`). -/
structure SlavePing where
  id : Nat
  clientName : String
  envName : String
  lastPingTime : Int
  status : String
  slaveVersion : String
  createdAt : Int
  updatedAt : Int
deriving DecidableEq

/-- The threshold classification of sqlite.go 494–503: age ≤ 10 min →
`online`, ≤ 15 min → `warning`, else `offline`. -/
def classifyPingAge (age : Int) : String :=
  if age ≤ 10 * 60 then "online"
  else if age ≤ 15 * 60 then "warning"
  else "offline"

/-- `GetSlavePingStatus` (sqlite.go 478–506): the storage layer either fails
(`.error`, any `QueryRow` error other than no-rows) or yields the table; a
missing row is `("never", zero time)`; otherwise the status is computed from
`now - last_ping_time`.  The zero `time.Time` is modelled as `none`.  Note the
query selects only `last_ping_time`: the stored `status` column is never
read. -/
def getSlavePingStatus (table : Except Unit (List SlavePing)) (now : Int)
    (client env : String) : Except Unit (String × Option Int) :=
  match table with
  | .error e => .error e
  | .ok pings =>
    match pings.find? (fun p => p.clientName == client && p.envName == env) with
    | none => .ok ("never", none)
    | some p => .ok (classifyPingAge (now - p.lastPingTime), some p.lastPingTime)

/-- The consumer in `handleClientsEnvironments` (handlers.go 497–502): a
storage error is reported as `"unknown"`, otherwise the computed status is
passed through. -/
def reportedPingStatus (table : Except Unit (List SlavePing)) (now : Int)
    (client env : String) : String :=
  match getSlavePingStatus table now client env with
  | .error _ => "unknown"
  | .ok (s, _) => s

/-- Overwrite the stored `status` column of a row. -/
def setStoredStatus (s : String) (p : SlavePing) : SlavePing := { p with status := s }

/-- C7 (confirmed): the reported liveness status is a pure function of
`(now, last_heartbeat_at)` computed at read time — no heartbeat row yields
`"never"`, age ≤ 10 min yields `"online"`, age in (10, 15] min yields
`"warning"`, age > 15 min yields `"offline"`, a storage error yields
`"unknown"` — and rewriting the stored `status` column arbitrarily never
changes the reported classification. -/
theorem ping_status_pure_of_now_and_heartbeat (pings : List SlavePing)
    (now : Int) (client env : String) :
    (pings.find? (fun p => p.clientName == client && p.envName == env) = none →
      reportedPingStatus (.ok pings) now client env = "never")
    ∧ (∀ p, pings.find? (fun p => p.clientName == client && p.envName == env) = some p →
        reportedPingStatus (.ok pings) now client env
          = classifyPingAge (now - p.lastPingTime))
    ∧ (∀ age : Int, (age ≤ 600 → classifyPingAge age = "online")
        ∧ (600 < age → age ≤ 900 → classifyPingAge age = "warning")
        ∧ (900 < age → classifyPingAge age = "offline"))
    ∧ reportedPingStatus (.error ()) now client env = "unknown"
    ∧ (∀ s, reportedPingStatus (.ok (pings.map (setStoredStatus s))) now client env
        = reportedPingStatus (.ok pings) now client env) := by
  refine ⟨?_, ?_, ?_, rfl, ?_⟩
  · intro hnone
    unfold reportedPingStatus getSlavePingStatus
    dsimp only
    rw [hnone]
  · intro p hp
    unfold reportedPingStatus getSlavePingStatus
    dsimp only
    rw [hp]
  · intro age
    refine ⟨?_, ?_, ?_⟩
    · intro h
      unfold classifyPingAge
      rw [if_pos (by omega)]
    · intro h1 h2
      unfold classifyPingAge
      rw [if_neg (by omega), if_pos (by omega)]
    · intro h
      unfold classifyPingAge
      rw [if_neg (by omega), if_neg (by omega)]
  · intro s
    unfold reportedPingStatus getSlavePingStatus
    dsimp only
    rw [List.find?_map]
    have hpred : (fun p => p.clientName == client && p.envName == env)
        ∘ setStoredStatus s = (fun p => p.clientName == client && p.envName == env) := by
      funext p
      rfl
    rw [hpred]
    cases pings.find? (fun p => p.clientName == client && p.envName == env) with
    | none => rfl
    | some p => rfl

/-- A concrete heartbeat row: tenant `("A", "e")`, heartbeat at time 0. -/
def exPing : SlavePing :=
  { id := 1, clientName := "A", envName := "e", lastPingTime := 0,
    status := "offline", slaveVersion := "v1", createdAt := 0, updatedAt := 0 }

/-- Witness for `ping_status_pure_of_now_and_heartbeat`: ages of 9, 12 and 20
minutes classify as online/warning/offline, an absent row as `"never"`, a
storage error as `"unknown"`, and the (stale) stored `status := "offline"`
column of `exPing` never leaks into the report. -/
theorem ping_status_pure_of_now_and_heartbeat_witness :
    reportedPingStatus (.ok [exPing]) 540 "A" "e" = "online"
    ∧ reportedPingStatus (.ok [exPing]) 720 "A" "e" = "warning"
    ∧ reportedPingStatus (.ok [exPing]) 1200 "A" "e" = "offline"
    ∧ reportedPingStatus (.ok []) 540 "A" "e" = "never"
    ∧ reportedPingStatus (.error ()) 540 "A" "e" = "unknown"
    ∧ reportedPingStatus (.ok ([exPing].map (setStoredStatus "online"))) 1200 "A" "e"
        = reportedPingStatus (.ok [exPing]) 1200 "A" "e" := by
  refine ⟨?_, ?_, ?_, ?_, ?_, ?_⟩
  · rw [(ping_status_pure_of_now_and_heartbeat [exPing] 540 "A" "e").2.1 exPing (by decide)]
    decide
  · rw [(ping_status_pure_of_now_and_heartbeat [exPing] 720 "A" "e").2.1 exPing (by decide)]
    decide
  · rw [(ping_status_pure_of_now_and_heartbeat [exPing] 1200 "A" "e").2.1 exPing (by decide)]
    decide
  · exact (ping_status_pure_of_now_and_heartbeat [] 540 "A" "e").1 (by decide)
  · exact (ping_status_pure_of_now_and_heartbeat [] 540 "A" "e").2.2.2.1
  · exact (ping_status_pure_of_now_and_heartbeat [exPing] 1200 "A" "e").2.2.2.2 "online"

end KRelease
